import Mathlib

/-!
Shallow embedding of the ResumeScreening workflow core
(`src/resumescreening/tools.py` and `src/resumescreening/graph.py`).

Python dicts with fixed keys become structures; the module-global `BOOKED`
ledger becomes an explicit `List String` threaded through the booking
operations; status and decision strings stay strings, exactly as in the
source; Python's `history[-1]` (which raises on an empty list) makes the
feedback stage return an `Option`.
-/

namespace ResumeScreening

/-- One screening outcome, as built by `screen_resumes_node` in graph.py. -/
structure ScreeningResult where
  candidate_id : String
  score : ℚ
  decision : String
  reasons : String
deriving DecidableEq

/-- One interview round record, as appended by `schedule_round_node`. -/
structure InterviewRound where
  round_number : Nat
  slot : String
  feedback : Option String
  decision : Option String
deriving DecidableEq

/-- Per-candidate interview record, as built by `init_interviews_node`. -/
structure CandidateInterview where
  candidate_id : String
  status : String
  current_round : Nat
  history : List InterviewRound
deriving DecidableEq

/-- The profile dict returned by `parse_resume` in tools.py. -/
structure Profile where
  skills : List String
  years_experience : Nat
  summary : String
deriving DecidableEq

/-- The score dict returned by `score_against_jd` in tools.py. -/
structure ScoreInfo where
  score : ℚ
  decision : String
  reasons : String
deriving DecidableEq

/-- tools.py `parse_resume`: ignores its input and returns a fixed profile. -/
def parse_resume (_text : String) : Profile :=
  { skills := ["python", "fastapi", "docker"]
    years_experience := 4
    summary := "Software engineer with backend experience" }

/-- tools.py `score_against_jd`: fixed score 0.8, decision by threshold 0.7. -/
def score_against_jd (_jd : String) (_profile : Profile) : ScoreInfo :=
  let score : ℚ := 0.8
  let reasons : String := "Good match for backend skills and years of experience"
  let decision : String := if score ≥ 0.7 then "shortlist" else "reject"
  { score := score, decision := decision, reasons := reasons }

/-- tools.py `PANEL_SLOTS`: predefined availability per role
(`dict.get(role, [])` semantics). -/
def PANEL_SLOTS (role : String) : List String :=
  if role = "backend_engineer" then
    ["2025-12-13 10:00", "2025-12-13 11:00", "2025-12-13 15:00", "2025-12-13 16:00"]
  else []

/-- tools.py `get_panel_availability`: slots of the role not yet booked.
The module-global `BOOKED` list is the explicit first argument. -/
def get_panel_availability (booked : List String) (role : String) : List String :=
  (PANEL_SLOTS role).filter (fun s => !(booked.contains s))

/-- The booking-status dict returned by `book_slot`. -/
structure BookResult where
  status : String
  slot : String
deriving DecidableEq

/-- tools.py `book_slot`: fails when the slot is already in `BOOKED`,
otherwise appends it and confirms.  Returns the result dict together with
the updated `BOOKED` list. -/
def book_slot (booked : List String) (_candidate_id : String) (slot : String) :
    BookResult × List String :=
  if booked.contains slot then ({ status := "failed", slot := slot }, booked)
  else ({ status := "confirmed", slot := slot }, booked ++ [slot])

/-- tools.py `simulate_feedback`: canned feedback text per round. -/
def simulate_feedback (round_no : Nat) : String :=
  if round_no = 1 then "Round 1 feedback: strong python and basic design skills."
  else "Round 2 feedback: strong system design and communication."

/-- Boolean list-prefix test on characters (used to model Python's
`in` substring operator). -/
def charsPrefixOf : List Char → List Char → Bool
  | [], _ => true
  | _ :: _, [] => false
  | a :: as, b :: bs => a == b && charsPrefixOf as bs

/-- Boolean substring occurrence on character lists. -/
def charsContains (pat : List Char) : List Char → Bool
  | [] => charsPrefixOf pat []
  | c :: cs => charsPrefixOf pat (c :: cs) || charsContains pat cs

/-- Python's `pat in s` substring test on strings. -/
def strContains (s pat : String) : Bool :=
  charsContains pat.data s.data

/-- Python's `str.lower`: lowercase every character (ASCII, as in
`Char.toLower`; every string in this development is ASCII). -/
def strLower (s : String) : String :=
  ⟨s.data.map Char.toLower⟩

/-- tools.py `decide_next_step`: lowercases the feedback, then the ordered
decision table: "weak" → reject; "strong" and round ≥ 2 → offer; "strong"
and round == 1 → next_round; otherwise reject. -/
def decide_next_step (feedback : String) (round_no : Nat) : String :=
  let feedback_parsed := strLower feedback
  if strContains feedback_parsed "weak" = true then "reject"
  else if strContains feedback_parsed "strong" = true ∧ 2 ≤ round_no then "offer"
  else if strContains feedback_parsed "strong" = true ∧ round_no = 1 then "next_round"
  else "reject"

/-- Replays a sequence of `book_slot` calls (candidate id, slot) against the
ledger, returning the final `BOOKED` list. -/
def run_bookings : List String → List (String × String) → List String
  | booked, [] => booked
  | booked, (cid, slot) :: rest => run_bookings (book_slot booked cid slot).2 rest

/-- graph.py `screen_resumes_node`, body of the loop: parse, score, and build
the screening dict for the resume at 0-based position `idx`. -/
def screen_one (jd : String) (idx : Nat) (resume : String) : ScreeningResult :=
  let profile := parse_resume resume
  let score_info := score_against_jd jd profile
  { candidate_id := "cand-" ++ toString (idx + 1)
    score := score_info.score
    decision := score_info.decision
    reasons := score_info.reasons }

/-- graph.py `screen_resumes_node`, the `enumerate` loop with explicit index. -/
def screen_resumes_go (jd : String) : Nat → List String → List ScreeningResult
  | _, [] => []
  | idx, r :: rs => screen_one jd idx r :: screen_resumes_go jd (idx + 1) rs

/-- graph.py `screen_resumes_node`: one ScreeningResult per resume, in order. -/
def screen_resumes_node (jd : String) (resumes : List String) : List ScreeningResult :=
  screen_resumes_go jd 0 resumes

/-- graph.py `init_interviews_node`: one fresh CandidateInterview per
shortlisted screening result, in order. -/
def init_interviews_node : List ScreeningResult → List CandidateInterview
  | [] => []
  | r :: rs =>
    if r.decision = "shortlist" then
      { candidate_id := r.candidate_id
        status := "pending_first_round"
        current_round := 0
        history := [] } :: init_interviews_node rs
    else init_interviews_node rs

/-- graph.py `route_next`: schedule if anyone is pending a round, else collect
feedback if anyone is waiting, else generate the report. -/
def route_next (interviews : List CandidateInterview) : String :=
  if interviews.any (fun iv =>
      iv.status == "pending_first_round" || iv.status == "next_round_pending") then
    "schedule_round"
  else if interviews.any (fun iv => iv.status == "waiting_feedback") then
    "collect_feedback"
  else "generate_hr_report"

/-- Eligibility test of graph.py `schedule_round_node`
(`status in ["pending_first_round", "next_round_pending"]`). -/
def eligibleB (iv : CandidateInterview) : Bool :=
  iv.status == "pending_first_round" || iv.status == "next_round_pending"

/-- The record update `schedule_round_node` performs on a successful booking:
bump `current_round`, append the fresh round with empty feedback and decision,
move to `waiting_feedback`. -/
def schedUpdate (iv : CandidateInterview) (chosen : String) : CandidateInterview :=
  { iv with
    current_round := iv.current_round + 1
    status := "waiting_feedback"
    history := iv.history ++
      [{ round_number := iv.current_round + 1
         slot := chosen
         feedback := none
         decision := none }] }

/-- The aggregate mutable state of a run: the interview list plus the
module-global `BOOKED` ledger of tools.py. -/
structure SchedState where
  interviews : List CandidateInterview
  booked : List String
deriving DecidableEq

/-- graph.py `schedule_round_node`, one iteration of the candidate loop:
skip ineligible candidates and candidates arriving after slot exhaustion
(`continue`), pop the first slot (also consumed when the booking fails),
and on a confirmed booking perform the update.  Returns the (possibly
updated) candidate, the remaining `slots`, and the updated `BOOKED`. -/
def schedule_step (iv : CandidateInterview) (slots booked : List String) :
    CandidateInterview × List String × List String :=
  if eligibleB iv then
    match slots with
    | [] => (iv, [], booked)
    | chosen :: slots' =>
      let booking := book_slot booked iv.candidate_id chosen
      if booking.1.status ≠ "confirmed" then (iv, slots', booking.2)
      else (schedUpdate iv chosen, slots', booking.2)
  else (iv, slots, booked)

/-- graph.py `schedule_round_node`, the candidate loop: threads the local
`slots` list and the global `BOOKED` ledger through the candidates in
list order. -/
def schedule_go : List String → List String → List CandidateInterview →
    List CandidateInterview × List String
  | _slots, booked, [] => ([], booked)
  | slots, booked, iv :: rest =>
    let step := schedule_step iv slots booked
    let out := schedule_go step.2.1 step.2.2 rest
    (step.1 :: out.1, out.2)

/-- graph.py `schedule_round_node`: fetch availability for the hardcoded
"backend_engineer" role, then run the candidate loop. -/
def schedule_round_node (st : SchedState) : SchedState :=
  let slots := get_panel_availability st.booked "backend_engineer"
  let out := schedule_go slots st.booked st.interviews
  { interviews := out.1, booked := out.2 }

/-- graph.py `collect_feedback_node`, the status dispatch on the decision
string (`if/elif` chain; any other string leaves the status unchanged). -/
def apply_decision (iv : CandidateInterview) (decision : String) : CandidateInterview :=
  if decision = "next_round" then { iv with status := "next_round_pending" }
  else if decision = "reject" then { iv with status := "rejected" }
  else if decision = "offer" then { iv with status := "offer_made" }
  else iv

/-- graph.py `collect_feedback_node`, body for one candidate: read the last
round (`history[-1]` raises on an empty history, hence the `Option`), write
feedback and decision into it in place, and transition the status. -/
def collect_one (iv : CandidateInterview) : Option CandidateInterview :=
  if iv.status ≠ "waiting_feedback" then some iv
  else
    match iv.history.getLast? with
    | none => none
    | some last_round =>
      let round_no := last_round.round_number
      let feedback := simulate_feedback round_no
      let decision := decide_next_step feedback round_no
      let last' := { last_round with feedback := some feedback, decision := some decision }
      let iv' := { iv with history := iv.history.dropLast ++ [last'] }
      some (apply_decision iv' decision)

/-- graph.py `collect_feedback_node`, the candidate loop. -/
def collect_feedback_go : List CandidateInterview → Option (List CandidateInterview)
  | [] => some []
  | iv :: rest =>
    match collect_one iv with
    | none => none
    | some iv' =>
      match collect_feedback_go rest with
      | none => none
      | some rest' => some (iv' :: rest')

/-- graph.py `collect_feedback_node` over the aggregate state. -/
def collect_feedback_node (st : SchedState) : Option SchedState :=
  match collect_feedback_go st.interviews with
  | none => none
  | some ivs => some { st with interviews := ivs }

/-- The two looping stages reachable from the router. -/
inductive Stage where
  | schedule
  | feedback
deriving DecidableEq

/-- Execute one stage over the aggregate state. -/
def applyStage : Stage → SchedState → Option SchedState
  | Stage.schedule, st => some (schedule_round_node st)
  | Stage.feedback, st => collect_feedback_node st

/-- Execute a sequence of stages, stopping on a crash. -/
def applyStages : List Stage → SchedState → Option SchedState
  | [], st => some st
  | s :: rest, st =>
    match applyStage s st with
    | none => none
    | some st' => applyStages rest st'

/-- One tick of the compiled graph's router loop (`build_graph`): consult
`route_next` and execute the selected stage; `none` when the router selects
the terminal report stage or the stage crashes. -/
def tick (st : SchedState) : Option SchedState :=
  if route_next st.interviews = "schedule_round" then some (schedule_round_node st)
  else if route_next st.interviews = "collect_feedback" then collect_feedback_node st
  else none

/-- `n`-fold iteration of `tick`. -/
def iterTick : Nat → SchedState → Option SchedState
  | 0, st => some st
  | n + 1, st =>
    match tick st with
    | none => none
    | some st' => iterTick n st'

/-- Number of schedule-eligible candidates in a list. -/
def countEligible (ivs : List CandidateInterview) : Nat :=
  (ivs.filter (fun iv => eligibleB iv)).length

/-- The per-candidate round-bookkeeping invariant of the spec:
`current_round == len(history)` and `history[i].round_number == i+1`. -/
def roundsInv (iv : CandidateInterview) : Prop :=
  iv.current_round = iv.history.length ∧
  ∀ (i : Nat) (r : InterviewRound), iv.history[i]? = some r → r.round_number = i + 1

/-- Five resumes: more candidates than the four bundled panel slots. -/
def demo_resumes : List String := ["r1", "r2", "r3", "r4", "r5"]

/-- The aggregate state right after screening and interview initialization of
`demo_resumes`, with the ledger fresh. -/
def freshSt5 : SchedState :=
  { interviews := init_interviews_node (screen_resumes_node "backend engineer jd" demo_resumes)
    booked := [] }

/-- The five freshly initialized candidate records of `freshSt5`, written out. -/
def pending5 : List CandidateInterview :=
  (List.range 5).map (fun i =>
    { candidate_id := "cand-" ++ toString (i + 1)
      status := "pending_first_round"
      current_round := 0
      history := [] })

/-- `freshSt5`, with the interview list written out. -/
def st0 : SchedState := ⟨pending5, []⟩

/-- The state one scheduling tick after `st0`: four candidates booked into the
four slots, the fifth still pending with the ledger exhausted. -/
def stuckSt : SchedState := schedule_round_node st0

/-- Scenario D, first eligible candidate. -/
def cD1 : CandidateInterview :=
  { candidate_id := "cand-1", status := "pending_first_round"
    current_round := 0, history := [] }

/-- Scenario D, second eligible candidate. -/
def cD2 : CandidateInterview :=
  { candidate_id := "cand-2", status := "next_round_pending"
    current_round := 1
    history := [{ round_number := 1, slot := "2025-12-13 10:00"
                  feedback := some "Round 1 feedback: strong python and basic design skills."
                  decision := some "next_round" }] }

/-- Scenario D state: two eligible candidates, three of the four slots already
booked, so exactly one slot is free. -/
def stD : SchedState :=
  ⟨[cD1, cD2], ["2025-12-13 10:00", "2025-12-13 11:00", "2025-12-13 15:00"]⟩

/-- A candidate already in the terminal `rejected` status. -/
def cT : CandidateInterview :=
  { candidate_id := "cand-9", status := "rejected", current_round := 1
    history := [{ round_number := 1, slot := "2025-12-13 10:00"
                  feedback := some "weak on basics", decision := some "reject" }] }

/-- A state holding one terminal candidate next to one pending candidate. -/
def stT : SchedState := ⟨[cT, cD1], []⟩

end ResumeScreening

namespace ResumeScreening

lemma mem_book_slot_snd {slot : String} {booked : List String} (cid slot' : String)
    (h : slot ∈ booked) : slot ∈ (book_slot booked cid slot').2 := by
  unfold book_slot
  split
  · exact h
  · exact List.mem_append_left _ h

lemma mem_run_bookings {slot : String} {booked : List String}
    (calls : List (String × String)) (h : slot ∈ booked) :
    slot ∈ run_bookings booked calls := by
  induction calls generalizing booked with
  | nil => exact h
  | cons c rest ih =>
    obtain ⟨cid, slot'⟩ := c
    exact ih (mem_book_slot_snd cid slot' h)

lemma book_slot_failed_of_mem {slot : String} {booked : List String} (cid : String)
    (h : slot ∈ booked) : (book_slot booked cid slot).1.status = "failed" := by
  unfold book_slot
  rw [if_pos (List.elem_eq_true_of_mem h)]

lemma mem_book_slot_self (booked : List String) (cid slot : String) :
    slot ∈ (book_slot booked cid slot).2 := by
  unfold book_slot
  split
  · next hc => exact List.elem_iff.mp hc
  · exact List.mem_append_right _ (List.mem_singleton.mpr rfl)

/-- C2: once `book_slot` has confirmed a slot, every later `book_slot` call on
the same slot (any candidate, after any further sequence of booking calls)
returns failed, and the slot stays in the `BOOKED` ledger forever. -/
theorem book_slot_confirmed_then_always_failed
    (booked : List String) (cid slot : String)
    (_h : (book_slot booked cid slot).1.status = "confirmed") :
    ∀ (calls : List (String × String)) (cid' : String),
      (book_slot (run_bookings (book_slot booked cid slot).2 calls) cid' slot).1.status
        = "failed" ∧
      slot ∈ run_bookings (book_slot booked cid slot).2 calls := by
  intro calls cid'
  have hmem : slot ∈ run_bookings (book_slot booked cid slot).2 calls :=
    mem_run_bookings calls (mem_book_slot_self booked cid slot)
  exact ⟨book_slot_failed_of_mem cid' hmem, hmem⟩

/-- C2 witness: a concrete confirmed booking followed by further calls. -/
theorem book_slot_confirmed_then_always_failed_witness :
    (book_slot
        (run_bookings (book_slot [] "cand-1" "2025-12-13 10:00").2
          [("cand-2", "2025-12-13 11:00")])
        "cand-3" "2025-12-13 10:00").1.status = "failed" ∧
      "2025-12-13 10:00" ∈
        run_bookings (book_slot [] "cand-1" "2025-12-13 10:00").2
          [("cand-2", "2025-12-13 11:00")] :=
  book_slot_confirmed_then_always_failed [] "cand-1" "2025-12-13 10:00" (by decide)
    [("cand-2", "2025-12-13 11:00")] "cand-3"

/-- C4: the ordered decision table of `decide_next_step` ("contains" is the
case-insensitive containment the code implements by lowercasing): feedback
containing "weak" gives reject; otherwise "strong" with round ≥ 2 gives
offer; otherwise "strong" with round = 1 gives next_round; in every other
case the default is reject. -/
theorem decide_next_step_table (f : String) (r : Nat) :
    (strContains (strLower f) "weak" = true → decide_next_step f r = "reject") ∧
    (strContains (strLower f) "weak" = false → strContains (strLower f) "strong" = true →
      2 ≤ r → decide_next_step f r = "offer") ∧
    (strContains (strLower f) "weak" = false → strContains (strLower f) "strong" = true →
      r = 1 → decide_next_step f r = "next_round") ∧
    (strContains (strLower f) "weak" = false →
      strContains (strLower f) "strong" = false ∨ r = 0 →
      decide_next_step f r = "reject") := by
  refine ⟨fun hw => ?_, fun hw hs hr => ?_, fun hw hs hr => ?_, fun hw hd => ?_⟩
  · simp [decide_next_step, hw]
  · simp [decide_next_step, hw, hs, hr]
  · subst hr
    simp [decide_next_step, hw, hs]
  · rcases hd with hs | hr
    · simp [decide_next_step, hw, hs]
    · subst hr
      simp [decide_next_step, hw]

/-- C4 witness: one concrete input per row of the decision table. -/
theorem decide_next_step_table_witness :
    decide_next_step "weak on algorithms" 1 = "reject" ∧
    decide_next_step "Round 2 feedback: strong system design and communication." 2 = "offer" ∧
    decide_next_step "Round 1 feedback: strong python and basic design skills." 1 = "next_round" ∧
    decide_next_step "average performance" 3 = "reject" :=
  ⟨(decide_next_step_table "weak on algorithms" 1).1 (by decide),
   (decide_next_step_table
      "Round 2 feedback: strong system design and communication." 2).2.1
      (by decide) (by decide) (by decide),
   (decide_next_step_table
      "Round 1 feedback: strong python and basic design skills." 1).2.2.1
      (by decide) (by decide) rfl,
   (decide_next_step_table "average performance" 3).2.2.2 (by decide)
      (Or.inl (by decide))⟩

/-- C5: `route_next` selects the scheduling stage exactly when some candidate
is pending a (first or next) round, the feedback stage exactly when no one is
pending but someone waits for feedback, and the report stage exactly when
neither holds; in particular scheduling always wins over feedback. -/
theorem route_next_cases (ivs : List CandidateInterview) :
    (route_next ivs = "schedule_round" ↔
      ∃ iv ∈ ivs, iv.status = "pending_first_round" ∨ iv.status = "next_round_pending") ∧
    (route_next ivs = "collect_feedback" ↔
      (∀ iv ∈ ivs, iv.status ≠ "pending_first_round" ∧ iv.status ≠ "next_round_pending") ∧
      ∃ iv ∈ ivs, iv.status = "waiting_feedback") ∧
    (route_next ivs = "generate_hr_report" ↔
      ∀ iv ∈ ivs, iv.status ≠ "pending_first_round" ∧ iv.status ≠ "next_round_pending" ∧
        iv.status ≠ "waiting_feedback") ∧
    (∀ iv ∈ ivs, ∀ iv' ∈ ivs,
      (iv.status = "pending_first_round" ∨ iv.status = "next_round_pending") →
      iv'.status = "waiting_feedback" → route_next ivs = "schedule_round") := by
  have hpend : (ivs.any fun iv =>
      iv.status == "pending_first_round" || iv.status == "next_round_pending") = true ↔
      ∃ iv ∈ ivs, iv.status = "pending_first_round" ∨ iv.status = "next_round_pending" := by
    simp
  have hwait : (ivs.any fun iv => iv.status == "waiting_feedback") = true ↔
      ∃ iv ∈ ivs, iv.status = "waiting_feedback" := by
    simp
  by_cases h1 : (ivs.any fun iv =>
      iv.status == "pending_first_round" || iv.status == "next_round_pending") = true
  · have hroute : route_next ivs = "schedule_round" := by
      unfold route_next
      rw [if_pos h1]
    obtain ⟨w, hwm, hwp⟩ := hpend.mp h1
    refine ⟨⟨fun _ => ⟨w, hwm, hwp⟩, fun _ => hroute⟩, ?_, ?_, ?_⟩
    · constructor
      · intro hc
        rw [hroute] at hc
        exact absurd hc (by decide)
      · rintro ⟨hall, -⟩
        rcases hwp with hp | hp
        · exact absurd hp (hall w hwm).1
        · exact absurd hp (hall w hwm).2
    · constructor
      · intro hc
        rw [hroute] at hc
        exact absurd hc (by decide)
      · intro hall
        rcases hwp with hp | hp
        · exact absurd hp (hall w hwm).1
        · exact absurd hp (hall w hwm).2.1
    · intro _ _ _ _ _ _
      exact hroute
  · have h1' : ∀ iv ∈ ivs,
        iv.status ≠ "pending_first_round" ∧ iv.status ≠ "next_round_pending" := by
      intro iv hm
      constructor
      · intro hp
        exact h1 (hpend.mpr ⟨iv, hm, Or.inl hp⟩)
      · intro hp
        exact h1 (hpend.mpr ⟨iv, hm, Or.inr hp⟩)
    by_cases h2 : (ivs.any fun iv => iv.status == "waiting_feedback") = true
    · have hroute : route_next ivs = "collect_feedback" := by
        unfold route_next
        rw [if_neg h1, if_pos h2]
      obtain ⟨w, hwm, hwp⟩ := hwait.mp h2
      refine ⟨?_, ⟨fun _ => ⟨h1', w, hwm, hwp⟩, fun _ => hroute⟩, ?_, ?_⟩
      · constructor
        · intro hc
          rw [hroute] at hc
          exact absurd hc (by decide)
        · rintro ⟨iv, hm, hp⟩
          rcases hp with hp | hp
          · exact absurd hp (h1' iv hm).1
          · exact absurd hp (h1' iv hm).2
      · constructor
        · intro hc
          rw [hroute] at hc
          exact absurd hc (by decide)
        · intro hall
          exact absurd hwp (hall w hwm).2.2
      · intro iv hm iv' hm' hp _
        rcases hp with hp | hp
        · exact absurd hp (h1' iv hm).1
        · exact absurd hp (h1' iv hm).2
    · have h2' : ∀ iv ∈ ivs, iv.status ≠ "waiting_feedback" := by
        intro iv hm hw
        exact h2 (hwait.mpr ⟨iv, hm, hw⟩)
      have hroute : route_next ivs = "generate_hr_report" := by
        unfold route_next
        rw [if_neg h1, if_neg h2]
      refine ⟨?_, ?_,
        ⟨fun _ iv hm => ⟨(h1' iv hm).1, (h1' iv hm).2, h2' iv hm⟩, fun _ => hroute⟩, ?_⟩
      · constructor
        · intro hc
          rw [hroute] at hc
          exact absurd hc (by decide)
        · rintro ⟨iv, hm, hp⟩
          rcases hp with hp | hp
          · exact absurd hp (h1' iv hm).1
          · exact absurd hp (h1' iv hm).2
      · constructor
        · intro hc
          rw [hroute] at hc
          exact absurd hc (by decide)
        · rintro ⟨-, iv, hm, hw⟩
          exact absurd hw (h2' iv hm)
      · intro iv hm iv' hm' hp hw
        exact absurd hw (h2' iv' hm')

/-- C5 witness: with one pending and one waiting candidate, scheduling wins. -/
theorem route_next_cases_witness :
    route_next [cD1, { cD2 with status := "waiting_feedback" }] = "schedule_round" :=
  (route_next_cases [cD1, { cD2 with status := "waiting_feedback" }]).2.2.2
    cD1 (by decide) { cD2 with status := "waiting_feedback" } (by decide)
    (Or.inl (by decide)) (by decide)

lemma score_eval (jd : String) (p : Profile) :
    score_against_jd jd p =
      { score := 0.8, decision := "shortlist"
        reasons := "Good match for backend skills and years of experience" } := by
  unfold score_against_jd
  norm_num

lemma screen_one_decision (jd : String) (idx : Nat) (r : String) :
    (screen_one jd idx r).decision = "shortlist" := by
  simp [screen_one, score_eval]

lemma screen_resumes_go_length (jd : String) (idx : Nat) (rs : List String) :
    (screen_resumes_go jd idx rs).length = rs.length := by
  induction rs generalizing idx with
  | nil => rfl
  | cons r rs ih =>
    simp [screen_resumes_go, ih]

lemma screen_resumes_go_candidate_id (jd : String) (idx : Nat) (rs : List String) :
    ∀ (i : Nat) (res : ScreeningResult),
      (screen_resumes_go jd idx rs)[i]? = some res →
      res.candidate_id = "cand-" ++ toString (idx + i + 1) := by
  induction rs generalizing idx with
  | nil =>
    intro i res h
    simp [screen_resumes_go] at h
  | cons r rs ih =>
    intro i res h
    cases i with
    | zero =>
      rw [screen_resumes_go, List.getElem?_cons_zero, Option.some_inj] at h
      subst h
      simp [screen_one]
    | succ i =>
      rw [screen_resumes_go, List.getElem?_cons_succ] at h
      rw [ih (idx + 1) i res h]
      congr 2
      omega

/-- C9: screening yields one result per resume, in order: same length as the
input list, and the result at 0-based index `i` carries candidate id
`cand-(i+1)`, whatever its decision. -/
theorem screen_resumes_node_shape (jd : String) (resumes : List String) :
    (screen_resumes_node jd resumes).length = resumes.length ∧
    ∀ (i : Nat) (res : ScreeningResult),
      (screen_resumes_node jd resumes)[i]? = some res →
      res.candidate_id = "cand-" ++ toString (i + 1) := by
  constructor
  · exact screen_resumes_go_length jd 0 resumes
  · intro i res h
    have := screen_resumes_go_candidate_id jd 0 resumes i res h
    simpa using this

/-- C9 witness: the third of three screening results is `cand-3`. -/
theorem screen_resumes_node_shape_witness :
    (screen_one "jd" 2 "r3").candidate_id = "cand-" ++ toString (2 + 1) := by
  have h : (screen_resumes_node "jd" ["r1", "r2", "r3"])[2]? = some (screen_one "jd" 2 "r3") := by
    simp [screen_resumes_node, screen_resumes_go]
  exact (screen_resumes_node_shape "jd" ["r1", "r2", "r3"]).2 2 (screen_one "jd" 2 "r3") h

lemma init_screen_go_length (jd : String) (idx : Nat) (rs : List String) :
    (init_interviews_node (screen_resumes_go jd idx rs)).length = rs.length := by
  induction rs generalizing idx with
  | nil => rfl
  | cons r rs ih =>
    simp [screen_resumes_go, init_interviews_node, screen_one_decision, ih]

/-- C10: the bundled scorer returns score 0.8 and decision "shortlist" for
every job description and profile, so screening followed by interview
initialization yields exactly one interview record per input resume. -/
theorem score_always_shortlist :
    (∀ (jd : String) (p : Profile),
      (score_against_jd jd p).score = 0.8 ∧ (score_against_jd jd p).decision = "shortlist") ∧
    ∀ (jd : String) (resumes : List String),
      (init_interviews_node (screen_resumes_node jd resumes)).length = resumes.length := by
  constructor
  · intro jd p
    rw [score_eval]
    exact ⟨rfl, rfl⟩
  · intro jd resumes
    exact init_screen_go_length jd 0 resumes

lemma eligibleB_iff (iv : CandidateInterview) :
    eligibleB iv = true ↔
      iv.status = "pending_first_round" ∨ iv.status = "next_round_pending" := by
  simp [eligibleB]

lemma terminal_not_eligible {iv : CandidateInterview}
    (h : iv.status = "rejected" ∨ iv.status = "offer_made") : eligibleB iv = false := by
  rcases h with h | h <;> simp [eligibleB, h]

lemma schedule_step_of_not_eligible {iv : CandidateInterview} (slots booked : List String)
    (h : eligibleB iv = false) : schedule_step iv slots booked = (iv, slots, booked) := by
  simp [schedule_step, h]

lemma schedule_step_fst (iv : CandidateInterview) (slots booked : List String) :
    (schedule_step iv slots booked).1 = iv ∨
      (eligibleB iv = true ∧ ∃ s, (schedule_step iv slots booked).1 = schedUpdate iv s) := by
  unfold schedule_step
  split
  · next he =>
    cases slots with
    | nil => exact Or.inl rfl
    | cons chosen slots' =>
      dsimp only
      split
      · exact Or.inl rfl
      · exact Or.inr ⟨he, chosen, rfl⟩
  · exact Or.inl rfl

lemma schedule_go_forall2 (slots booked : List String) (ivs : List CandidateInterview) :
    List.Forall₂ (fun iv out =>
      (eligibleB iv = false → out = iv) ∧
      (out = iv ∨ (eligibleB iv = true ∧ ∃ s, out = schedUpdate iv s)))
      ivs (schedule_go slots booked ivs).1 := by
  induction ivs generalizing slots booked with
  | nil => exact List.Forall₂.nil
  | cons iv rest ih =>
    simp only [schedule_go]
    refine List.Forall₂.cons ⟨?_, ?_⟩ (ih _ _)
    · intro h
      rw [schedule_step_of_not_eligible slots booked h]
    · exact schedule_step_fst iv slots booked

/-- C6: the per-candidate loop body of the scheduling stage, on an eligible
candidate whose booking call confirms, produces exactly the input record with
`current_round` incremented by one, one fresh `InterviewRound` (the booked
slot, feedback and decision empty) appended, and status `waiting_feedback`;
and across a whole scheduling tick every output record is either its input
unchanged or exactly such an update of an eligible input. -/
theorem schedule_round_confirmed_update :
    (∀ (iv : CandidateInterview) (booked : List String) (chosen : String)
        (slots' : List String),
      (iv.status = "pending_first_round" ∨ iv.status = "next_round_pending") →
      (book_slot booked iv.candidate_id chosen).1.status = "confirmed" →
      (schedule_step iv (chosen :: slots') booked).1 = schedUpdate iv chosen) ∧
    ∀ st : SchedState,
      List.Forall₂ (fun iv out =>
        out = iv ∨
          ((iv.status = "pending_first_round" ∨ iv.status = "next_round_pending") ∧
            ∃ s, out = schedUpdate iv s))
        st.interviews (schedule_round_node st).interviews := by
  constructor
  · intro iv booked chosen slots' he hb
    unfold schedule_step
    rw [if_pos ((eligibleB_iff iv).mpr he)]
    dsimp only
    rw [if_neg (fun hc => hc hb)]
  · intro st
    have h := schedule_go_forall2 (get_panel_availability st.booked "backend_engineer")
      st.booked st.interviews
    refine h.imp ?_
    rintro iv out ⟨-, hout | ⟨he, s, hout⟩⟩
    · exact Or.inl hout
    · exact Or.inr ⟨(eligibleB_iff iv).mp he, s, hout⟩

/-- C6 witness: the loop body books the free slot for a pending candidate. -/
theorem schedule_round_confirmed_update_witness :
    (schedule_step cD1 ["2025-12-13 16:00"] ["2025-12-13 10:00"]).1 =
      schedUpdate cD1 "2025-12-13 16:00" :=
  schedule_round_confirmed_update.1 cD1 ["2025-12-13 10:00"] "2025-12-13 16:00" []
    (Or.inl rfl) (by decide)

lemma countEligible_cons (iv : CandidateInterview) (l : List CandidateInterview) :
    countEligible (iv :: l) = (if eligibleB iv = true then 1 else 0) + countEligible l := by
  unfold countEligible
  rw [List.filter_cons]
  split
  · simp [Nat.add_comm]
  · simp

lemma schedule_step_slots_le (iv : CandidateInterview) (slots booked : List String) (n : Nat)
    (h : slots.length ≤ (if eligibleB iv = true then 1 else 0) + n) :
    (schedule_step iv slots booked).2.1.length ≤ n := by
  unfold schedule_step
  split
  · next he =>
    rw [if_pos he] at h
    cases slots with
    | nil => exact Nat.zero_le n
    | cons chosen slots' =>
      dsimp only
      rw [List.length_cons] at h
      split
      · simpa using Nat.le_of_succ_le_succ (by omega : slots'.length + 1 ≤ n + 1)
      · simpa using Nat.le_of_succ_le_succ (by omega : slots'.length + 1 ≤ n + 1)
  · next he =>
    rw [if_neg he, Nat.zero_add] at h
    exact h

lemma schedule_go_exhausted (slots booked : List String) (ivs : List CandidateInterview) :
    ∀ (i : Nat) (iv : CandidateInterview),
      ivs[i]? = some iv → eligibleB iv = true →
      slots.length ≤ countEligible (ivs.take i) →
      (schedule_go slots booked ivs).1[i]? = some iv := by
  induction ivs generalizing slots booked with
  | nil =>
    intro i iv h _ _
    simp at h
  | cons iv0 rest ih =>
    intro i iv h he hcnt
    simp only [schedule_go]
    cases i with
    | zero =>
      rw [List.getElem?_cons_zero, Option.some_inj] at h
      subst h
      have hslots : slots = [] := by
        rw [List.take_zero] at hcnt
        have : slots.length = 0 := Nat.le_zero.mp (by simpa [countEligible] using hcnt)
        exact List.length_eq_zero.mp this
      subst hslots
      have hstep : (schedule_step iv0 [] booked).1 = iv0 := by
        unfold schedule_step
        rw [if_pos he]
      rw [List.getElem?_cons_zero, hstep]
    | succ i =>
      rw [List.getElem?_cons_succ] at h
      rw [List.getElem?_cons_succ]
      refine ih _ _ i iv h he ?_
      rw [List.take_succ_cons, countEligible_cons] at hcnt
      exact schedule_step_slots_le iv0 slots booked _ hcnt

/-- C7: an eligible candidate reached after the free slots have been exhausted
by the eligible candidates before it is left completely unchanged (same
record, hence same status, round counter and history) by the scheduling tick;
and in Scenario D — the two eligible candidates `cD1`, `cD2` with a single
free slot — the tick updates exactly the first candidate (to
`waiting_feedback`) and returns the second one identical. -/
theorem schedule_no_slot_unchanged :
    (∀ (st : SchedState) (i : Nat) (iv : CandidateInterview),
      st.interviews[i]? = some iv →
      (iv.status = "pending_first_round" ∨ iv.status = "next_round_pending") →
      (get_panel_availability st.booked "backend_engineer").length ≤
        countEligible (st.interviews.take i) →
      (schedule_round_node st).interviews[i]? = some iv) ∧
    (schedule_round_node stD).interviews = [schedUpdate cD1 "2025-12-13 16:00", cD2] ∧
    (schedUpdate cD1 "2025-12-13 16:00").status = "waiting_feedback" := by
  refine ⟨?_, by decide, rfl⟩
  intro st i iv h he hcnt
  exact schedule_go_exhausted _ _ _ i iv h ((eligibleB_iff iv).mpr he) hcnt

/-- C7 witness: one pending candidate, all four slots already booked, record
unchanged by the scheduling tick. -/
theorem schedule_no_slot_unchanged_witness :
    (schedule_round_node ⟨[cD1], PANEL_SLOTS "backend_engineer"⟩).interviews[0]? =
      some cD1 :=
  schedule_no_slot_unchanged.1 ⟨[cD1], PANEL_SLOTS "backend_engineer"⟩ 0 cD1
    (by decide) (Or.inl rfl) (by decide)

lemma forall2_getElem? {α β : Type} {R : α → β → Prop} :
    ∀ {l₁ : List α} {l₂ : List β}, List.Forall₂ R l₁ l₂ →
      ∀ (i : Nat) (a : α), l₁[i]? = some a → ∃ b, l₂[i]? = some b ∧ R a b := by
  intro l₁ l₂ h
  induction h with
  | nil =>
    intro i a ha
    simp at ha
  | cons hr _ ih =>
    intro i a ha
    cases i with
    | zero =>
      rw [List.getElem?_cons_zero, Option.some_inj] at ha
      subst ha
      exact ⟨_, List.getElem?_cons_zero, hr⟩
    | succ i =>
      rw [List.getElem?_cons_succ] at ha
      obtain ⟨b, hb, hRb⟩ := ih i a ha
      refine ⟨b, ?_, hRb⟩
      rw [List.getElem?_cons_succ]
      exact hb

lemma forall2_mem_right {α β : Type} {R : α → β → Prop} :
    ∀ {l₁ : List α} {l₂ : List β}, List.Forall₂ R l₁ l₂ →
      ∀ {b : β}, b ∈ l₂ → ∃ a ∈ l₁, R a b := by
  intro l₁ l₂ h
  induction h with
  | nil =>
    intro b hb
    simp at hb
  | cons hr _ ih =>
    intro b hb
    rcases List.mem_cons.mp hb with rfl | hb
    · exact ⟨_, List.mem_cons_self _ _, hr⟩
    · obtain ⟨a, ha, hR⟩ := ih hb
      exact ⟨a, List.mem_cons_of_mem _ ha, hR⟩

lemma schedule_frame_ineligible (st : SchedState) (i : Nat) (iv : CandidateInterview)
    (h : st.interviews[i]? = some iv) (he : eligibleB iv = false) :
    (schedule_round_node st).interviews[i]? = some iv := by
  obtain ⟨b, hb, hR⟩ := forall2_getElem?
    (schedule_go_forall2 (get_panel_availability st.booked "backend_engineer")
      st.booked st.interviews) i iv h
  have hout : (schedule_round_node st).interviews =
      (schedule_go (get_panel_availability st.booked "backend_engineer")
        st.booked st.interviews).1 := rfl
  rw [hout, hb, hR.1 he]

lemma collect_one_not_waiting {iv : CandidateInterview}
    (h : ¬ iv.status = "waiting_feedback") : collect_one iv = some iv := by
  unfold collect_one
  rw [if_pos h]

lemma collect_feedback_go_forall2 :
    ∀ {ivs out : List CandidateInterview}, collect_feedback_go ivs = some out →
      List.Forall₂ (fun iv iv' => collect_one iv = some iv') ivs out := by
  intro ivs
  induction ivs with
  | nil =>
    intro out h
    rw [collect_feedback_go, Option.some_inj] at h
    subst h
    exact List.Forall₂.nil
  | cons iv rest ih =>
    intro out h
    rw [collect_feedback_go] at h
    cases h1 : collect_one iv with
    | none =>
      rw [h1] at h
      simp at h
    | some iv' =>
      rw [h1] at h
      cases h2 : collect_feedback_go rest with
      | none =>
        rw [h2] at h
        simp at h
      | some rest' =>
        rw [h2] at h
        simp only [Option.some_inj] at h
        subst h
        exact List.Forall₂.cons h1 (ih h2)

lemma collect_feedback_node_eq {st out : SchedState}
    (h : collect_feedback_node st = some out) :
    collect_feedback_go st.interviews = some out.interviews ∧ out.booked = st.booked := by
  unfold collect_feedback_node at h
  cases h2 : collect_feedback_go st.interviews with
  | none =>
    rw [h2] at h
    simp at h
  | some ivs =>
    rw [h2] at h
    simp only [Option.some_inj] at h
    subst h
    exact ⟨rfl, rfl⟩

lemma applyStage_terminal_frame (s : Stage) (st st' : SchedState)
    (h : applyStage s st = some st') (i : Nat) (iv : CandidateInterview)
    (hm : st.interviews[i]? = some iv)
    (ht : iv.status = "rejected" ∨ iv.status = "offer_made") :
    st'.interviews[i]? = some iv := by
  cases s with
  | schedule =>
    simp only [applyStage, Option.some_inj] at h
    subst h
    exact schedule_frame_ineligible st i iv hm (terminal_not_eligible ht)
  | feedback =>
    simp only [applyStage] at h
    have hgo := (collect_feedback_node_eq h).1
    obtain ⟨b, hb, hR⟩ := forall2_getElem? (collect_feedback_go_forall2 hgo) i iv hm
    have hnw : ¬ iv.status = "waiting_feedback" := by
      rcases ht with h' | h' <;> rw [h'] <;> decide
    have hone : collect_one iv = some iv := collect_one_not_waiting hnw
    rw [hone, Option.some_inj] at hR
    rw [hb, hR]

/-- C8: a candidate whose status is terminal (`rejected` or `offer_made`) is
returned unchanged, at its position, by every sequence of scheduling and
feedback stage executions. -/
theorem terminal_statuses_frozen :
    ∀ (st : SchedState) (stages : List Stage) (out : SchedState),
      applyStages stages st = some out →
      ∀ (i : Nat) (iv : CandidateInterview),
        st.interviews[i]? = some iv →
        iv.status = "rejected" ∨ iv.status = "offer_made" →
        out.interviews[i]? = some iv := by
  intro st stages
  induction stages generalizing st with
  | nil =>
    intro out h i iv hm ht
    rw [applyStages, Option.some_inj] at h
    subst h
    exact hm
  | cons s rest ih =>
    intro out h i iv hm ht
    rw [applyStages] at h
    cases h1 : applyStage s st with
    | none =>
      rw [h1] at h
      simp at h
    | some st' =>
      rw [h1] at h
      simp only [] at h
      exact ih st' out h i iv (applyStage_terminal_frame s st st' h1 i iv hm ht) ht

/-- C8 witness: a rejected candidate survives a scheduling tick unchanged. -/
theorem terminal_statuses_frozen_witness :
    (schedule_round_node stT).interviews[0]? = some cT :=
  terminal_statuses_frozen stT [Stage.schedule] (schedule_round_node stT) rfl 0 cT
    (by decide) (Or.inl rfl)

lemma roundsInv_schedUpdate {iv : CandidateInterview} (s : String) (h : roundsInv iv) :
    roundsInv (schedUpdate iv s) := by
  obtain ⟨hlen, hidx⟩ := h
  constructor
  · simp [schedUpdate, hlen]
  · intro i r hr
    simp only [schedUpdate] at hr
    by_cases hi : i < iv.history.length
    · rw [List.getElem?_append_left hi] at hr
      exact hidx i r hr
    · have hge : iv.history.length ≤ i := Nat.le_of_not_lt hi
      rw [List.getElem?_append_right hge] at hr
      cases hd : i - iv.history.length with
      | zero =>
        rw [hd, List.getElem?_cons_zero, Option.some_inj] at hr
        subst hr
        have hi' : i = iv.history.length := by omega
        simp only []
        omega
      | succ k =>
        rw [hd, List.getElem?_cons_succ] at hr
        simp at hr

lemma roundsInv_apply_decision {iv : CandidateInterview} (d : String) (h : roundsInv iv) :
    roundsInv (apply_decision iv d) := by
  unfold apply_decision
  split_ifs <;> exact h

lemma collect_one_inv {iv iv' : CandidateInterview} (h : collect_one iv = some iv')
    (hinv : roundsInv iv) : roundsInv iv' := by
  unfold collect_one at h
  split at h
  · rw [Option.some_inj] at h
    subst h
    exact hinv
  · cases hl : iv.history.getLast? with
    | none =>
      rw [hl] at h
      simp at h
    | some last =>
      rw [hl] at h
      simp only [Option.some_inj] at h
      subst h
      apply roundsInv_apply_decision
      obtain ⟨hlen, hidx⟩ := hinv
      have hne : iv.history ≠ [] := by
        intro hemp
        rw [hemp] at hl
        simp at hl
      have hlpos : 0 < iv.history.length := List.length_pos.mpr hne
      have hlast_idx : iv.history[iv.history.length - 1]? = some last := by
        rw [← List.getLast?_eq_getElem?]
        exact hl
      have hlast_rn : last.round_number = iv.history.length := by
        have := hidx (iv.history.length - 1) last hlast_idx
        omega
      constructor
      · simp only [List.length_append, List.length_dropLast, List.length_cons,
          List.length_nil]
        omega
      · intro i r hr
        simp only [] at hr
        by_cases hi : i < iv.history.length - 1
        · rw [List.getElem?_append_left (by simpa using hi)] at hr
          rw [List.getElem?_dropLast, if_pos hi] at hr
          exact hidx i r hr
        · have hge : iv.history.dropLast.length ≤ i := by
            simp only [List.length_dropLast]
            omega
          rw [List.getElem?_append_right hge] at hr
          cases hd : i - iv.history.dropLast.length with
          | zero =>
            rw [hd, List.getElem?_cons_zero, Option.some_inj] at hr
            subst hr
            have hi' : i = iv.history.length - 1 := by
              simp only [List.length_dropLast] at hd hge
              omega
            simp only []
            omega
          | succ k =>
            rw [hd, List.getElem?_cons_succ] at hr
            simp at hr

/-- C3: every candidate record created by interview initialization satisfies
`current_round = len(history)` with `history[i].round_number = i+1`, and both
the scheduling stage and the (non-crashing) feedback stage preserve this
invariant for every candidate in the set. -/
theorem rounds_invariant :
    (∀ (results : List ScreeningResult) (iv : CandidateInterview),
      iv ∈ init_interviews_node results → roundsInv iv) ∧
    (∀ (st : SchedState) (iv' : CandidateInterview),
      (∀ iv ∈ st.interviews, roundsInv iv) →
      iv' ∈ (schedule_round_node st).interviews → roundsInv iv') ∧
    (∀ (st out : SchedState) (iv' : CandidateInterview),
      collect_feedback_node st = some out →
      (∀ iv ∈ st.interviews, roundsInv iv) →
      iv' ∈ out.interviews → roundsInv iv') := by
  refine ⟨?_, ?_, ?_⟩
  · intro results
    induction results with
    | nil =>
      intro iv hm
      simp [init_interviews_node] at hm
    | cons r rs ih =>
      intro iv hm
      rw [init_interviews_node] at hm
      by_cases hd : r.decision = "shortlist"
      · rw [if_pos hd] at hm
        rcases List.mem_cons.mp hm with rfl | hm
        · refine ⟨rfl, ?_⟩
          intro i r' hr'
          simp at hr'
        · exact ih iv hm
      · rw [if_neg hd] at hm
        exact ih iv hm
  · intro st iv' hall hm
    have hout : (schedule_round_node st).interviews =
        (schedule_go (get_panel_availability st.booked "backend_engineer")
          st.booked st.interviews).1 := rfl
    rw [hout] at hm
    obtain ⟨iv, hiv, hR⟩ := forall2_mem_right
      (schedule_go_forall2 (get_panel_availability st.booked "backend_engineer")
        st.booked st.interviews) hm
    rcases hR.2 with heq | ⟨-, s, heq⟩
    · rw [heq]
      exact hall iv hiv
    · rw [heq]
      exact roundsInv_schedUpdate s (hall iv hiv)
  · intro st out iv' hnode hall hm
    have hgo := (collect_feedback_node_eq hnode).1
    obtain ⟨iv, hiv, hR⟩ := forall2_mem_right (collect_feedback_go_forall2 hgo) hm
    exact collect_one_inv hR (hall iv hiv)

/-- C1: refuted on the code.  Screening and initializing five resumes gives
five pending candidates (`st0`); the first scheduling tick books the four
bundled slots and reaches `stuckSt`, where one candidate is still
`pending_first_round` with no free slot left.  From there every tick selects
the scheduling stage, which changes nothing, so after any number of ticks the
workflow is still at `stuckSt` and the router never returns the report
stage: the loop does not terminate. -/
theorem router_loop_diverges :
    freshSt5 = st0 ∧
    tick st0 = some stuckSt ∧
    route_next stuckSt.interviews = "schedule_round" ∧
    ∀ n : Nat, iterTick n stuckSt = some stuckSt := by
  have htick : tick stuckSt = some stuckSt := by decide
  refine ⟨?_, by decide, by decide, ?_⟩
  · have hiv : init_interviews_node
        (screen_resumes_node "backend engineer jd" demo_resumes) = pending5 := by
      simp [demo_resumes, screen_resumes_node, screen_resumes_go, screen_one,
        init_interviews_node, score_eval, pending5]
      decide
    unfold freshSt5 st0
    rw [hiv]
  · intro n
    induction n with
    | zero => rfl
    | succ n ih =>
      simp only [iterTick]
      rw [htick]
      exact ih

/-- C3 witness: the invariant holds for the record initialized from one
shortlisted screening result. -/
theorem rounds_invariant_witness :
    roundsInv { candidate_id := "cand-1", status := "pending_first_round"
                current_round := 0, history := [] } :=
  rounds_invariant.1
    [{ candidate_id := "cand-1", score := 0.8, decision := "shortlist", reasons := "ok" }]
    { candidate_id := "cand-1", status := "pending_first_round"
      current_round := 0, history := [] }
    (by decide)

end ResumeScreening
